import Mathlib

/-!
# Verification of `utils::singleton<T>` (src/singleton.hpp)

Shallow embedding of the singleton holder of `src/singleton.hpp`.

The header has two implementations selected by preprocessor:

* the legacy path (`_MSC_VER < 1800`): a static pointer `object_`, a static
  `boost::mutex mutex_`, double-checked locking in `instance()`
  (lines 69-81), a `destroy()` helper (lines 87-91) and a static
  `object_destroyer` guard whose destructor deletes the instance at static
  teardown when it is still live (lines 96-108);
* the modern path (lines 165-178): `static T object;` inside `instance()`,
  relying on C++11 magic statics (thread-safe once-initialization, and
  destruction at exit in reverse order of completion of construction).

We embed:

* `LState` / `instanceLegacy` / `runOp`: the per-type slot state of the
  legacy path and its operations, sequentially, instrumented with counters
  of constructor runs and `delete` executions;
* `Config` / `Step`: a sequentially-consistent interleaving machine of the
  legacy `instance()` executed by `n` threads, for the first-call race;
* `MemEvent` lists: the memory-access shape (location and ordering
  annotation) of the legacy `instance()` paths, for the claims about
  acquire/release ordering;
* `accessOne` / `accessMany`: the modern path's construction order for
  singletons whose constructors access other singletons, with destruction
  in reverse order of completion of construction (C++ [basic.start.term]);
* `ClassDecl`: the accessibility of the holder's special members
  (`boost::noncopyable` base, private constructor/destructor).
-/

/-- Per-type slot state of the legacy path.  `object_` is the static
pointer (line 93, initialized to `NULL` at line 112); a pointer value is a
`Nat` allocation id.  `ctorRuns` counts executions of `new T` (line 76),
`deleteCount` counts executions of `delete object_` (line 89), `nextId`
feeds fresh allocation ids. -/
structure LState where
  object_ : Option Nat
  ctorRuns : Nat
  deleteCount : Nat
  nextId : Nat
deriving DecidableEq, Repr

/-- The slot as `T* singleton<T>::object_ = NULL;` leaves it (line 112). -/
def LState.init0 : LState :=
  { object_ := none, ctorRuns := 0, deleteCount := 0, nextId := 0 }

/-- Legacy `singleton<T>::instance()` (lines 69-81), sequentially.
`throws` says whether this `new T` would throw.  Result: `none` when the
constructor threw (the exception propagates, `object_` is never assigned,
the scoped lock is released), otherwise `some (p, lockTaken)` with `p` the
returned pointer and `lockTaken` whether the mutex was acquired; paired
with the state after the call. -/
def instanceLegacy (throws : Bool) (s : LState) : Option (Nat × Bool) × LState :=
  match s.object_ with
  | some p => (some (p, false), s)
  | none =>
      -- slow path: scoped_lock, second check (still NULL sequentially)
      if throws then
        (none, s)
      else
        (some (s.nextId, true),
         { s with object_ := some s.nextId
                , ctorRuns := s.ctorRuns + 1
                , nextId := s.nextId + 1 })

/-- Operations observable on a legacy slot: a call to `instance()` (whose
`new T` may throw) and the teardown hook `object_destroyer::~object_destroyer`
(lines 98-104), which calls `destroy()` (lines 87-91) only when `object_`
is not `NULL`. -/
inductive SlotOp where
  | call : Bool → SlotOp
  | teardown : SlotOp
deriving DecidableEq, Repr

/-- One operation on a legacy slot.  Teardown transcribes
`if (object_ != NULL) { delete object_; object_ = NULL; }`. -/
def runOp (s : LState) : SlotOp → LState
  | .call b => (instanceLegacy b s).2
  | .teardown =>
      if s.object_.isSome then
        { s with object_ := none, deleteCount := s.deleteCount + 1 }
      else s

/-- A sequence of operations on a legacy slot. -/
def runOps (s : LState) (l : List SlotOp) : LState :=
  l.foldl runOp s

/-- The slot holds a live instance. -/
def LState.isLive (s : LState) : Prop := s.object_.isSome

/-- The slot has been torn down: the instance was deleted and the pointer
reset, and no new instance has been created since. -/
def LState.isDestroyed (s : LState) : Prop :=
  s.object_ = none ∧ 0 < s.deleteCount

instance (s : LState) : Decidable s.isLive := by
  unfold LState.isLive; infer_instance

instance (s : LState) : Decidable s.isDestroyed := by
  unfold LState.isDestroyed; infer_instance

/-! ### Per-type independence of slots

Each instantiation `singleton<T>` owns its own statics (lines 111-118);
the process state is one `LState` per type index. -/

/-- The statics of all instantiations: one slot per type index. -/
def SysState := Nat → LState

/-- `singleton<T>::instance()` for the type with index `i` touches only
slot `i`. -/
def accessAt (i : Nat) (throws : Bool) (σ : SysState) :
    Option (Nat × Bool) × SysState :=
  let r := instanceLegacy throws (σ i)
  (r.1, Function.update σ i r.2)

/-- Teardown of the type with index `i` touches only slot `i`. -/
def teardownAt (i : Nat) (σ : SysState) : SysState :=
  Function.update σ i (runOp (σ i) .teardown)

/-! ### Interleaving machine for the first-call race (legacy path)

`n` threads each run the body of `instance()` (lines 69-81) over the shared
statics `object_`, `mutex_`, under sequentially-consistent interleaving.
A thread is at `start` (about to do the unsynchronized first check), at
`waiting` (first check saw `NULL`, waiting to acquire `mutex_`), at
`locked` (holding `mutex_`, about to re-check), or `done p` (returned the
pointer `p`). -/

/-- Control state of one thread executing `instance()`. -/
inductive TState where
  | start : TState
  | waiting : TState
  | locked : TState
  | done : Nat → TState
deriving DecidableEq, Repr

/-- Shared configuration: the statics plus every thread's control state.
`mutex` holds the owning thread when locked.  `ctorRuns` counts
executions of `new T`; the pointer produced by the `k`-th construction is
`k`. -/
structure Config (n : Nat) where
  object_ : Option Nat
  mutex : Option (Fin n)
  ctorRuns : Nat
  threads : Fin n → TState

/-- All threads about to make their first call, no prior call. -/
def Config.init (n : Nat) : Config n :=
  { object_ := none, mutex := none, ctorRuns := 0, threads := fun _ => .start }

/-- One interleaving step of the legacy `instance()`:
first unsynchronized check (hit or miss), mutex acquisition, second check
under the lock (hit), or construction and publication under the lock. -/
inductive Step {n : Nat} : Config n → Config n → Prop
  | fastHit (t : Fin n) (p : Nat) (c : Config n) :
      c.threads t = .start → c.object_ = some p →
      Step c { c with threads := Function.update c.threads t (.done p) }
  | fastMiss (t : Fin n) (c : Config n) :
      c.threads t = .start → c.object_ = none →
      Step c { c with threads := Function.update c.threads t .waiting }
  | acquire (t : Fin n) (c : Config n) :
      c.threads t = .waiting → c.mutex = none →
      Step c { c with mutex := some t
                    , threads := Function.update c.threads t .locked }
  | secondHit (t : Fin n) (p : Nat) (c : Config n) :
      c.threads t = .locked → c.object_ = some p →
      Step c { c with mutex := none
                    , threads := Function.update c.threads t (.done p) }
  | construct (t : Fin n) (c : Config n) :
      c.threads t = .locked → c.object_ = none →
      Step c { object_ := some c.ctorRuns
             , mutex := none
             , ctorRuns := c.ctorRuns + 1
             , threads := Function.update c.threads t (.done c.ctorRuns) }

/-- Configurations reachable by interleaving. -/
def Reach {n : Nat} : Config n → Config n → Prop :=
  Relation.ReflTransGen Step

/-- Machine invariant: the published pointer is the one produced by the
single construction; `instance()` constructs at most once; a finished
thread returned the published pointer; a thread inside the critical
section owns the mutex. -/
def MachineInv {n : Nat} (c : Config n) : Prop :=
  (∀ p, c.object_ = some p → p = 0 ∧ c.ctorRuns = 1) ∧
  (c.object_ = none → c.ctorRuns = 0) ∧
  (∀ t v, c.threads t = TState.done v → c.object_ = some v) ∧
  (∀ t, c.threads t = TState.locked → c.mutex = some t)

/-- The single thread of the one-thread machine. -/
def raceT0 : Fin 1 := ⟨0, Nat.zero_lt_one⟩

/-- One-thread run of the first call: after the missed fast check. -/
def raceC1 : Config 1 :=
  { Config.init 1 with
      threads := Function.update (Config.init 1).threads raceT0 TState.waiting }

/-- One-thread run of the first call: after acquiring the mutex. -/
def raceC2 : Config 1 :=
  { raceC1 with
      mutex := some raceT0
    , threads := Function.update raceC1.threads raceT0 TState.locked }

/-- One-thread run of the first call: after constructing and returning. -/
def raceFinal : Config 1 :=
  { object_ := some raceC2.ctorRuns
  , mutex := none
  , ctorRuns := raceC2.ctorRuns + 1
  , threads := Function.update raceC2.threads raceT0 (TState.done raceC2.ctorRuns) }

/-! ### Memory-access shape of the legacy `instance()`

For the claims about acquire/release ordering we record, straight from
lines 69-81, the sequence of shared-memory accesses each path performs and
the ordering annotation each access carries in the source.  `object_` is a
plain `T*`: every load and store of it in the source is an ordinary
(plain) access; the only synchronization is `mutex_`. -/

/-- Ordering annotation carried by a memory access in the source. -/
inductive MemOrder where
  | plain : MemOrder
  | acq : MemOrder
  | rel : MemOrder
deriving DecidableEq, Repr

/-- A shared-memory event of `instance()`: a load or store of a named
static, a mutex acquisition/release, or the run of `T`'s constructor. -/
inductive MemEvent where
  | load : String → MemOrder → MemEvent
  | store : String → MemOrder → MemEvent
  | lockAcq : MemEvent
  | lockRel : MemEvent
  | ctorRun : MemEvent
deriving DecidableEq, Repr

/-- The ordering annotation an event carries (`plain` for events that are
not memory accesses). -/
def MemEvent.ord : MemEvent → MemOrder
  | .load _ o => o
  | .store _ o => o
  | _ => .plain

/-- Recognizes store events. -/
def MemEvent.isStore : MemEvent → Bool
  | .store _ _ => true
  | _ => false

/-- Recognizes load events. -/
def MemEvent.isLoad : MemEvent → Bool
  | .load _ _ => true
  | _ => false

/-- The fast path of lines 69-81 (`object_` already non-NULL): the
unsynchronized check at line 71, then the read for `return *object_;` at
line 80.  Both are plain loads of the non-atomic `T* object_`. -/
def legacyFastPath : List MemEvent :=
  [ .load "object_" .plain
  , .load "object_" .plain ]

/-- The slow path of lines 69-81 (first call): plain check (line 71),
lock (line 73), plain second check (line 74), construction and plain
publishing store `object_ = new T;` (line 76), unlock (line 79, scope
end), plain read for the return (line 80). -/
def legacySlowPath : List MemEvent :=
  [ .load "object_" .plain
  , .lockAcq
  , .load "object_" .plain
  , .ctorRun
  , .store "object_" .plain
  , .lockRel
  , .load "object_" .plain ]

/-! ### Modern path: construction order and destruction order

The modern `instance()` (lines 169-173) is `static T object;`.  Per C++
semantics of function-local statics, the first call constructs the object;
a constructor that itself calls `singleton<U>::instance()` finishes
constructing `U`'s object before continuing; each object is registered for
destruction when its construction completes, and destruction at exit runs
in reverse order of those completions.

Types are indices; `deps τ` lists, in order, the singletons whose
`instance()` the constructor of `τ` calls.  `reg` is the registration
list: type indices in order of completed construction.  Fuel bounds the
nesting depth; a dependency cycle exhausts it (in C++ such re-entry is
undefined behavior / deadlock). -/

mutual

/-- `singleton<τ>::instance()` in the modern path: if `τ`'s object is
already constructed, nothing changes; otherwise the constructor runs,
first constructing each dependency in order, and `τ` is registered (its
construction completes) last. -/
def accessOne (deps : Nat → List Nat) :
    Nat → Nat → List Nat → Option (List Nat)
  | 0, _, _ => none
  | fuel + 1, τ, reg =>
      if τ ∈ reg then some reg
      else
        match accessMany deps fuel (deps τ) reg with
        | some reg' => some (reg' ++ [τ])
        | none => none

/-- Constructs the singletons of a dependency list, left to right. -/
def accessMany (deps : Nat → List Nat) :
    Nat → List Nat → List Nat → Option (List Nat)
  | _, [], reg => some reg
  | fuel, d :: ds, reg =>
      match accessOne deps fuel d reg with
      | some reg' => accessMany deps fuel ds reg'
      | none => none

end

/-- Destruction at exit: reverse order of completed construction. -/
def destructionOrder (reg : List Nat) : List Nat :=
  reg.reverse

/-- The spec's `Logger`/`ConfigStore` scenario as a dependency map: type
`0` (`Logger`) accesses type `1` (`ConfigStore`) in its constructor;
`ConfigStore` accesses nothing. -/
def depsLC : Nat → List Nat := fun n => if n = 0 then [1] else []

/-- A rank function witnessing that `depsLC` is acyclic. -/
def rankLC : Nat → Nat := fun n => if n = 0 then 1 else 0

/-! ### Accessibility of the holder's special members

`singleton<T>` derives from `boost::noncopyable` (lines 66 and 166), whose
copy constructor and copy assignment are inaccessible to users, and
declares its default constructor and destructor `private`
(lines 84-85 and 176-177).  We embed the resulting accessibility of each
special member and the C++ rule that user code can invoke a special member
only when it is public. -/

/-- Accessibility of a class member, as declared. -/
inductive MemberAccess where
  | pub : MemberAccess
  | prot : MemberAccess
  | priv : MemberAccess
deriving DecidableEq, Repr

/-- The special members of a class and their accessibility to user code. -/
structure ClassDecl where
  copyCtor : MemberAccess
  copyAssign : MemberAccess
  defaultCtor : MemberAccess
  dtor : MemberAccess
deriving DecidableEq, Repr

/-- User code outside the class can invoke a member only when it is
public. -/
def userInvocable : MemberAccess → Bool
  | .pub => true
  | _ => false

/-- `singleton<T>` as declared: copy constructor and copy assignment come
from the private members of `boost::noncopyable`; its own default
constructor and destructor are private (lines 84-85, 176-177). -/
def singletonClassDecl : ClassDecl :=
  { copyCtor := .priv
  , copyAssign := .priv
  , defaultCtor := .priv
  , dtor := .priv }

/-! ## Helper lemmas about the legacy slot -/

theorem runOps_nil (s : LState) : runOps s [] = s := rfl

theorem runOps_cons (s : LState) (o : SlotOp) (l : List SlotOp) :
    runOps s (o :: l) = runOps (runOp s o) l := rfl

theorem instanceLegacy_of_some (b : Bool) (s : LState) (p : Nat)
    (h : s.object_ = some p) : instanceLegacy b s = (some (p, false), s) := by
  simp [instanceLegacy, h]

theorem instanceLegacy_deleteCount (b : Bool) (s : LState) :
    ((instanceLegacy b s).2).deleteCount = s.deleteCount := by
  cases hs : s.object_ <;> cases b <;> simp [instanceLegacy, hs]

theorem instanceLegacy_live_preserve (b : Bool) (s : LState)
    (h : s.object_.isSome) : ((instanceLegacy b s).2).object_.isSome := by
  obtain ⟨p, hp⟩ := Option.isSome_iff_exists.mp h
  simp [instanceLegacy_of_some b s p hp, h]

theorem instanceLegacy_false_live (s : LState) :
    ((instanceLegacy false s).2).object_.isSome := by
  cases hs : s.object_ <;> simp [instanceLegacy, hs]

theorem runOps_call_deleteCount (calls : List Bool) :
    ∀ s : LState, (runOps s (calls.map SlotOp.call)).deleteCount = s.deleteCount := by
  induction calls with
  | nil => intro s; rfl
  | cons b bs ih =>
      intro s
      rw [List.map_cons, runOps_cons, ih]
      show ((instanceLegacy b s).2).deleteCount = s.deleteCount
      exact instanceLegacy_deleteCount b s

theorem runOps_call_live (calls : List Bool) :
    ∀ s : LState, s.object_.isSome →
      (runOps s (calls.map SlotOp.call)).object_.isSome := by
  induction calls with
  | nil => intro s h; exact h
  | cons b bs ih =>
      intro s h
      rw [List.map_cons, runOps_cons]
      exact ih _ (instanceLegacy_live_preserve b s h)

theorem runOps_call_false_live (calls : List Bool) (h : false ∈ calls) :
    ∀ s : LState, (runOps s (calls.map SlotOp.call)).object_.isSome := by
  induction calls with
  | nil => cases h
  | cons b bs ih =>
      intro s
      rcases List.mem_cons.mp h with hb | hb
      · rw [List.map_cons, runOps_cons, ← hb]
        exact runOps_call_live bs _ (instanceLegacy_false_live s)
      · rw [List.map_cons, runOps_cons]
        exact ih hb _

theorem runOp_teardown_none (s : LState) (h : s.object_ = none) :
    runOp s .teardown = s := by
  simp [runOp, h]

theorem runOp_teardown_some (s : LState) (p : Nat) (h : s.object_ = some p) :
    runOp s .teardown =
      { s with object_ := none, deleteCount := s.deleteCount + 1 } := by
  simp [runOp, h]

theorem runOps_teardown_replicate (k : Nat) (s : LState) (h : s.object_ = none) :
    runOps s (List.replicate k .teardown) = s := by
  induction k with
  | zero => rfl
  | succ m ih => rw [List.replicate_succ, runOps_cons, runOp_teardown_none s h, ih]

/-! ## Claim C2: a construction failure is not cached -/

/-- C2: if `T`'s default constructor throws during the first call to
`instance()`, the exception propagates to that caller (result `none`) and
the slot state is unchanged, so `object_` stays `NULL`; a later call whose
construction does not throw succeeds, runs the constructor, and yields a
live instance. -/
theorem ctor_failure_not_cached (s : LState) (h : s.object_ = none) :
    instanceLegacy true s = (none, s) ∧
    (instanceLegacy false s).1 = some (s.nextId, true) ∧
    ((instanceLegacy false s).2).object_ = some s.nextId ∧
    ((instanceLegacy false s).2).ctorRuns = s.ctorRuns + 1 := by
  refine ⟨?_, ?_, ?_, ?_⟩ <;> simp [instanceLegacy, h]

/-- Witness for C2 at the freshly initialized slot. -/
theorem ctor_failure_not_cached_witness :
    instanceLegacy true LState.init0 = (none, LState.init0) ∧
    (instanceLegacy false LState.init0).1 = some (LState.init0.nextId, true) ∧
    ((instanceLegacy false LState.init0).2).object_ = some LState.init0.nextId ∧
    ((instanceLegacy false LState.init0).2).ctorRuns = LState.init0.ctorRuns + 1 :=
  ctor_failure_not_cached LState.init0 rfl

/-! ## Claim C3: transitions after destruction -/

/-- C3 fails as stated on the legacy path: `destroy()` resets `object_` to
`NULL`, which is indistinguishable from "not yet created", so an
`instance()` call made after teardown constructs a fresh object — the slot
transitions from destroyed back to live. -/
theorem destroyed_relive_counterexample :
    (runOps LState.init0 [.call false, .teardown]).isDestroyed ∧
    (runOps LState.init0 [.call false, .teardown, .call false]).isLive := by
  decide

/-- C3 amended: once the slot is destroyed it never transitions back to
live provided no `instance()` call happens after teardown (post-teardown
access is the documented undefined behavior); under any further teardown
operations the slot stays destroyed and is never live. -/
theorem destroyed_stays_destroyed (s : LState) (l : List SlotOp)
    (h : s.isDestroyed) (hl : ∀ o ∈ l, o = SlotOp.teardown) :
    (runOps s l).isDestroyed ∧ ¬ (runOps s l).isLive := by
  have main : ∀ (l' : List SlotOp) (s' : LState), (∀ o ∈ l', o = SlotOp.teardown) →
      s'.isDestroyed → (runOps s' l').isDestroyed := by
    intro l'
    induction l' with
    | nil => intro s' _ hs; exact hs
    | cons o os ih =>
        intro s' hl' hs
        have ho : o = SlotOp.teardown := hl' o (List.mem_cons_self _ _)
        subst ho
        rw [runOps_cons, runOp_teardown_none s' hs.1]
        exact ih s' (fun o' ho' => hl' o' (List.mem_cons_of_mem _ ho')) hs
  have hd := main l s hl h
  refine ⟨hd, ?_⟩
  simp [LState.isLive, hd.1]

/-- Witness for the amended C3: after create-then-teardown, a further
teardown leaves the slot destroyed and not live. -/
theorem destroyed_stays_destroyed_witness :
    (runOps (runOps LState.init0 [.call false, .teardown]) [.teardown]).isDestroyed ∧
    ¬ (runOps (runOps LState.init0 [.call false, .teardown]) [.teardown]).isLive :=
  destroyed_stays_destroyed (runOps LState.init0 [.call false, .teardown])
    [.teardown] (by decide) (by decide)

/-! ## Claim C5: destruction exactly once at teardown -/

/-- C5: starting from the fresh slot, any sequence of `instance()` calls
containing at least one non-throwing one performs no `delete` (destruction
is no earlier than the last access) and leaves a live instance; the
teardown guard then deletes the instance exactly once — running the
teardown hook any number of further times performs no further `delete`
and leaves the slot reset (`object_ == NULL`), so a double delete never
occurs. -/
theorem instance_destroyed_exactly_once (calls : List Bool) (k : Nat)
    (h : false ∈ calls) :
    (runOps LState.init0 (calls.map SlotOp.call)).deleteCount = 0 ∧
    (runOps LState.init0 (calls.map SlotOp.call)).isLive ∧
    (runOps (runOps LState.init0 (calls.map SlotOp.call))
        (List.replicate (k + 1) SlotOp.teardown)).deleteCount = 1 ∧
    (runOps (runOps LState.init0 (calls.map SlotOp.call))
        (List.replicate (k + 1) SlotOp.teardown)).object_ = none := by
  have hd : (runOps LState.init0 (calls.map SlotOp.call)).deleteCount = 0 :=
    runOps_call_deleteCount calls LState.init0
  have hl : (runOps LState.init0 (calls.map SlotOp.call)).object_.isSome :=
    runOps_call_false_live calls h LState.init0
  obtain ⟨p, hp⟩ := Option.isSome_iff_exists.mp hl
  have hrun : runOps (runOps LState.init0 (calls.map SlotOp.call))
      (List.replicate (k + 1) SlotOp.teardown) =
      { runOps LState.init0 (calls.map SlotOp.call) with
          object_ := none
        , deleteCount := (runOps LState.init0 (calls.map SlotOp.call)).deleteCount + 1 } := by
    rw [List.replicate_succ, runOps_cons, runOp_teardown_some _ p hp]
    exact runOps_teardown_replicate k _ rfl
  refine ⟨hd, ?_, ?_, ?_⟩
  · simp [LState.isLive, hl]
  · rw [hrun]; simp [hd]
  · rw [hrun]

/-- Witness for C5: one successful call, two teardown runs. -/
theorem instance_destroyed_exactly_once_witness :
    (runOps LState.init0 ([false].map SlotOp.call)).deleteCount = 0 ∧
    (runOps LState.init0 ([false].map SlotOp.call)).isLive ∧
    (runOps (runOps LState.init0 ([false].map SlotOp.call))
        (List.replicate 2 SlotOp.teardown)).deleteCount = 1 ∧
    (runOps (runOps LState.init0 ([false].map SlotOp.call))
        (List.replicate 2 SlotOp.teardown)).object_ = none :=
  instance_destroyed_exactly_once [false] 1 (by decide)

/-! ## Claim C6: initialized fast path takes no lock -/

/-- C6: once the slot holds an instance, any further `instance()` call
returns the same pointer after the single unsynchronized check, acquires
no lock (`lockTaken = false`), and leaves the slot state unchanged. -/
theorem fast_path_single_check_no_lock (b : Bool) (s : LState) (p : Nat)
    (h : s.object_ = some p) :
    instanceLegacy b s = (some (p, false), s) := by
  simp [instanceLegacy, h]

/-- Witness for C6 on a slot already holding pointer `7`. -/
theorem fast_path_single_check_no_lock_witness :
    instanceLegacy true ⟨some 7, 1, 0, 8⟩ = (some (7, false), ⟨some 7, 1, 0, 8⟩) :=
  fast_path_single_check_no_lock true ⟨some 7, 1, 0, 8⟩ 7 rfl

/-! ## Claim C7: ordering annotations of the legacy double-checked path -/

/-- C7 fails as stated: in the legacy path the publishing store
`object_ = new T;` is a plain store of a non-atomic pointer — there is no
release-annotated store in the slow path — and the unsynchronized
fast-path reads are plain loads, not acquire loads. -/
theorem dclp_no_release_acquire :
    MemEvent.store "object_" MemOrder.plain ∈ legacySlowPath ∧
    MemEvent.store "object_" MemOrder.rel ∉ legacySlowPath ∧
    MemEvent.load "object_" MemOrder.acq ∉ legacyFastPath := by
  decide

/-- C7 amended: the legacy path carries no acquire/release annotations at
all — every store of the slow path and every load of the fast path is a
plain access on the non-atomic `object_`; the only synchronization is the
mutex, and the publishing store does occur between the lock acquisition
and its release. -/
theorem dclp_publish_plain_under_mutex :
    (∀ e ∈ legacySlowPath, e.isStore → e.ord = MemOrder.plain) ∧
    (∀ e ∈ legacyFastPath, e.isLoad → e.ord = MemOrder.plain) ∧
    legacySlowPath.indexOf MemEvent.lockAcq <
      legacySlowPath.indexOf (MemEvent.store "object_" MemOrder.plain) ∧
    legacySlowPath.indexOf (MemEvent.store "object_" MemOrder.plain) <
      legacySlowPath.indexOf MemEvent.lockRel := by
  decide

/-! ## Claim C8: slots of distinct types are independent -/

/-- C8: operations on the slot of type index `i` (access with or without a
throwing constructor, teardown) leave the slot of any other type index `j`
unchanged. -/
theorem slots_disjoint (i j : Nat) (hij : i ≠ j) (b : Bool) (σ : SysState) :
    (accessAt i b σ).2 j = σ j ∧ teardownAt i σ j = σ j := by
  constructor <;>
    simp [accessAt, teardownAt, Function.update_noteq (Ne.symm hij)]

/-- Witness for C8 at type indices `0` and `1`. -/
theorem slots_disjoint_witness :
    (accessAt 0 false (fun _ => LState.init0)).2 1 = (fun _ => LState.init0) 1 ∧
    teardownAt 0 (fun _ => LState.init0) 1 = (fun _ => LState.init0) 1 :=
  slots_disjoint 0 1 (by decide) false (fun _ => LState.init0)

/-! ## Claim C9: the holder cannot be copied, assigned or instantiated -/

/-- C9: no special member that user code would need in order to copy,
assign, or construct `singleton<T>` is invocable from outside the class:
the copy constructor and copy assignment (inherited private members of
`boost::noncopyable`) and the holder's own default constructor are all
inaccessible, so copying, assignment and instantiation are rejected at
compile time. -/
theorem holder_noncopyable_private :
    userInvocable singletonClassDecl.copyCtor = false ∧
    userInvocable singletonClassDecl.copyAssign = false ∧
    userInvocable singletonClassDecl.defaultCtor = false := by
  decide

/-! ## Claim C10: a normal return yields a non-null slot -/

/-- C10: whenever the legacy `instance()` returns normally (result
`some`), the slot pointer `object_` is non-null at the point of return and
is exactly the returned pointer, on every path. -/
theorem instance_return_nonnull (b : Bool) (s s' : LState) (p : Nat)
    (lk : Bool) (h : instanceLegacy b s = (some (p, lk), s')) :
    s'.object_ = some p := by
  cases hs : s.object_ with
  | none =>
      cases b
      · simp [instanceLegacy, hs] at h
        obtain ⟨⟨hp, -⟩, hs'⟩ := h
        simp [← hs', hp]
      · simp [instanceLegacy, hs] at h
  | some q =>
      simp [instanceLegacy, hs] at h
      obtain ⟨⟨hp, -⟩, hs'⟩ := h
      simp [← hs', hp, hs]

/-- Witness for C10 on the first successful call. -/
theorem instance_return_nonnull_witness :
    ((instanceLegacy false LState.init0).2).object_ = some 0 :=
  instance_return_nonnull false LState.init0
    ((instanceLegacy false LState.init0).2) 0 true rfl

/-! ## Claim C1: the first-call race constructs exactly once -/

theorem inv_init (n : Nat) : MachineInv (Config.init n) := by
  refine ⟨?_, ?_, ?_, ?_⟩
  · intro p hp; exact absurd hp (by simp [Config.init])
  · intro _; rfl
  · intro t v ht; exact absurd ht (by simp [Config.init])
  · intro t ht; exact absurd ht (by simp [Config.init])

theorem inv_step {n : Nat} {c c' : Config n} (h : MachineInv c) (hs : Step c c') :
    MachineInv c' := by
  obtain ⟨h1, h2, h3, h4⟩ := h
  cases hs with
  | fastHit t p c ht hp =>
      refine ⟨h1, h2, ?_, ?_⟩
      · intro u v hu
        dsimp only at hu ⊢
        rcases eq_or_ne u t with rfl | hut
        · rw [Function.update_same] at hu
          injection hu with hv
          rw [← hv]; exact hp
        · rw [Function.update_noteq hut] at hu
          exact h3 u v hu
      · intro u hu
        dsimp only at hu ⊢
        rcases eq_or_ne u t with rfl | hut
        · rw [Function.update_same] at hu; cases hu
        · rw [Function.update_noteq hut] at hu
          exact h4 u hu
  | fastMiss t c ht hobj =>
      refine ⟨h1, h2, ?_, ?_⟩
      · intro u v hu
        dsimp only at hu ⊢
        rcases eq_or_ne u t with rfl | hut
        · rw [Function.update_same] at hu; cases hu
        · rw [Function.update_noteq hut] at hu
          exact h3 u v hu
      · intro u hu
        dsimp only at hu ⊢
        rcases eq_or_ne u t with rfl | hut
        · rw [Function.update_same] at hu; cases hu
        · rw [Function.update_noteq hut] at hu
          exact h4 u hu
  | acquire t c ht hm =>
      refine ⟨h1, h2, ?_, ?_⟩
      · intro u v hu
        dsimp only at hu ⊢
        rcases eq_or_ne u t with rfl | hut
        · rw [Function.update_same] at hu; cases hu
        · rw [Function.update_noteq hut] at hu
          exact h3 u v hu
      · intro u hu
        dsimp only at hu ⊢
        rcases eq_or_ne u t with rfl | hut
        · rfl
        · rw [Function.update_noteq hut] at hu
          exact absurd (h4 u hu) (by rw [hm]; exact fun hc => Option.noConfusion hc)
  | secondHit t p c ht hp =>
      refine ⟨h1, h2, ?_, ?_⟩
      · intro u v hu
        dsimp only at hu ⊢
        rcases eq_or_ne u t with rfl | hut
        · rw [Function.update_same] at hu
          injection hu with hv
          rw [← hv]; exact hp
        · rw [Function.update_noteq hut] at hu
          exact h3 u v hu
      · intro u hu
        dsimp only at hu ⊢
        rcases eq_or_ne u t with rfl | hut
        · rw [Function.update_same] at hu; cases hu
        · rw [Function.update_noteq hut] at hu
          have hu' := h4 u hu
          have ht' := h4 t ht
          rw [ht'] at hu'
          injection hu' with hut'
          exact absurd hut'.symm hut
  | construct t c ht hobj =>
      have hc0 : c.ctorRuns = 0 := h2 hobj
      refine ⟨?_, ?_, ?_, ?_⟩
      · intro p hp
        dsimp only at hp ⊢
        injection hp with hp
        rw [← hp, hc0]
        exact ⟨rfl, rfl⟩
      · intro hnone
        dsimp only at hnone
        cases hnone
      · intro u v hu
        dsimp only at hu ⊢
        rcases eq_or_ne u t with rfl | hut
        · rw [Function.update_same] at hu
          injection hu with hv
          rw [← hv]
        · rw [Function.update_noteq hut] at hu
          exact absurd (h3 u v hu) (by rw [hobj]; exact fun hc => Option.noConfusion hc)
      · intro u hu
        dsimp only at hu ⊢
        rcases eq_or_ne u t with rfl | hut
        · rw [Function.update_same] at hu; cases hu
        · rw [Function.update_noteq hut] at hu
          have hu' := h4 u hu
          have ht' := h4 t ht
          rw [ht'] at hu'
          injection hu' with hut'
          exact absurd hut'.symm hut

theorem inv_reach {n : Nat} {c : Config n} (h : Reach (Config.init n) c) :
    MachineInv c := by
  induction h with
  | refl => exact inv_init n
  | tail _ hstep ih => exact inv_step ih hstep

/-- C1: for any number of threads `n` concurrently making the first call
to `instance()` with no prior call, under any interleaving in which all
threads finish, the constructor of `T` has run exactly once and all
threads returned the same pointer. -/
theorem first_call_constructs_once {n : Nat} (c : Config n) (hn : 0 < n)
    (hr : Reach (Config.init n) c)
    (hdone : ∀ t : Fin n, ∃ v, c.threads t = TState.done v) :
    c.ctorRuns = 1 ∧
    (∀ t u : Fin n, ∀ v w : Nat,
      c.threads t = TState.done v → c.threads u = TState.done w → v = w) := by
  obtain ⟨h1, h2, h3, h4⟩ := inv_reach hr
  obtain ⟨v0, hv0⟩ := hdone ⟨0, hn⟩
  obtain ⟨hv00, hcr⟩ := h1 v0 (h3 _ v0 hv0)
  refine ⟨hcr, ?_⟩
  intro t u v w ht hu
  have hv := h3 t v ht
  have hw := h3 u w hu
  rw [hv] at hw
  exact Option.some.inj hw

/-- Witness for C1: the one-thread interleaving
fast-miss, acquire, construct reaches a final configuration with exactly
one constructor run and agreeing return values. -/
theorem first_call_constructs_once_witness :
    raceFinal.ctorRuns = 1 ∧
    (∀ t u : Fin 1, ∀ v w : Nat,
      raceFinal.threads t = TState.done v →
      raceFinal.threads u = TState.done w → v = w) :=
  first_call_constructs_once raceFinal Nat.zero_lt_one
    (by
      refine Relation.ReflTransGen.head
        (Step.fastMiss raceT0 (Config.init 1) rfl rfl) ?_
      refine Relation.ReflTransGen.head
        (Step.acquire raceT0 raceC1 (by simp [raceC1, Config.init]) rfl) ?_
      exact Relation.ReflTransGen.single
        (Step.construct raceT0 raceC2 (by simp [raceC2, Function.update_same]) rfl))
    (fun t => ⟨0, by
      fin_cases t
      simp [raceFinal, raceC2, raceC1, Config.init, raceT0, Function.update_same]⟩)

/-! ## Claim C4: destruction order of dependent singletons (modern path) -/

theorem accessMany_subset_of (deps : Nat → List Nat) (fuel : Nat)
    (H : ∀ (τ : Nat) (reg reg' : List Nat),
      accessOne deps fuel τ reg = some reg' → reg ⊆ reg') :
    ∀ (ds reg reg' : List Nat),
      accessMany deps fuel ds reg = some reg' → reg ⊆ reg' := by
  intro ds
  induction ds with
  | nil =>
      intro reg reg' h
      simp only [accessMany] at h
      injection h with h
      subst h
      exact List.Subset.refl _
  | cons a as ih =>
      intro reg reg' h
      simp only [accessMany] at h
      cases ho : accessOne deps fuel a reg with
      | none => simp only [ho] at h; cases h
      | some r1 =>
          simp only [ho] at h
          exact (H a reg r1 ho).trans (ih r1 reg' h)

theorem accessOne_subset (deps : Nat → List Nat) :
    ∀ (fuel τ : Nat) (reg reg' : List Nat),
      accessOne deps fuel τ reg = some reg' → reg ⊆ reg' := by
  intro fuel
  induction fuel with
  | zero => intro τ reg reg' h; simp [accessOne] at h
  | succ f ih =>
      intro τ reg reg' h
      simp only [accessOne] at h
      by_cases hmem : τ ∈ reg
      · rw [if_pos hmem] at h
        injection h with h
        subst h
        exact List.Subset.refl _
      · rw [if_neg hmem] at h
        cases hm : accessMany deps f (deps τ) reg with
        | none => simp only [hm] at h; cases h
        | some mid =>
            simp only [hm] at h
            injection h with h
            rw [← h]
            exact (accessMany_subset_of deps f ih (deps τ) reg mid hm).trans
              (List.subset_append_left mid [τ])

theorem accessOne_self_mem (deps : Nat → List Nat) (fuel τ : Nat)
    (reg reg' : List Nat) (h : accessOne deps fuel τ reg = some reg') :
    τ ∈ reg' := by
  cases fuel with
  | zero => simp [accessOne] at h
  | succ f =>
      simp only [accessOne] at h
      by_cases hmem : τ ∈ reg
      · rw [if_pos hmem] at h
        injection h with h
        rw [← h]; exact hmem
      · rw [if_neg hmem] at h
        cases hm : accessMany deps f (deps τ) reg with
        | none => simp only [hm] at h; cases h
        | some mid =>
            simp only [hm] at h
            injection h with h
            rw [← h]
            exact List.mem_append_right mid (List.mem_singleton_self τ)

theorem accessMany_mem_of (deps : Nat → List Nat) (fuel : Nat) :
    ∀ (ds reg reg' : List Nat),
      accessMany deps fuel ds reg = some reg' → ∀ d ∈ ds, d ∈ reg' := by
  intro ds
  induction ds with
  | nil => intro reg reg' _ d hd; cases hd
  | cons a as ih =>
      intro reg reg' h d hd
      simp only [accessMany] at h
      cases ho : accessOne deps fuel a reg with
      | none => simp only [ho] at h; cases h
      | some r1 =>
          simp only [ho] at h
          rcases List.mem_cons.mp hd with rfl | hd'
          · exact accessMany_subset_of deps fuel (accessOne_subset deps fuel)
              as r1 reg' h (accessOne_self_mem deps fuel d reg r1 ho)
          · exact ih r1 reg' h d hd'

theorem accessMany_rank_of (deps : Nat → List Nat) (rank : Nat → Nat)
    (fuel : Nat)
    (Hone : ∀ (τ : Nat) (reg reg' : List Nat),
      accessOne deps fuel τ reg = some reg' →
      ∀ x ∈ reg', x ∈ reg ∨ rank x ≤ rank τ) :
    ∀ (ds reg reg' : List Nat),
      accessMany deps fuel ds reg = some reg' →
      ∀ x ∈ reg', x ∈ reg ∨ ∃ d ∈ ds, rank x ≤ rank d := by
  intro ds
  induction ds with
  | nil =>
      intro reg reg' h x hx
      simp only [accessMany] at h
      injection h with h
      left; rw [h]; exact hx
  | cons a as ih =>
      intro reg reg' h x hx
      simp only [accessMany] at h
      cases ho : accessOne deps fuel a reg with
      | none => simp only [ho] at h; cases h
      | some r1 =>
          simp only [ho] at h
          rcases ih r1 reg' h x hx with hx1 | ⟨d, hd, hr⟩
          · rcases Hone a reg r1 ho x hx1 with hx0 | hr
            · left; exact hx0
            · right; exact ⟨a, List.mem_cons_self a as, hr⟩
          · right; exact ⟨d, List.mem_cons_of_mem a hd, hr⟩

theorem accessOne_rank (deps : Nat → List Nat) (rank : Nat → Nat)
    (hrank : ∀ x y, y ∈ deps x → rank y < rank x) :
    ∀ (fuel τ : Nat) (reg reg' : List Nat),
      accessOne deps fuel τ reg = some reg' →
      ∀ x ∈ reg', x ∈ reg ∨ rank x ≤ rank τ := by
  intro fuel
  induction fuel with
  | zero => intro τ reg reg' h; simp [accessOne] at h
  | succ f ih =>
      intro τ reg reg' h x hx
      simp only [accessOne] at h
      by_cases hmem : τ ∈ reg
      · rw [if_pos hmem] at h
        injection h with h
        left; rw [h]; exact hx
      · rw [if_neg hmem] at h
        cases hm : accessMany deps f (deps τ) reg with
        | none => simp only [hm] at h; cases h
        | some mid =>
            simp only [hm] at h
            injection h with h
            rw [← h] at hx
            rcases List.mem_append.mp hx with hxm | hxτ
            · rcases accessMany_rank_of deps rank f ih (deps τ) reg mid hm
                x hxm with h0 | ⟨d, hd, hr⟩
              · left; exact h0
              · right; exact hr.trans (le_of_lt (hrank τ d hd))
            · right
              rw [List.mem_singleton.mp hxτ]

/-- C4 amended: if singleton `A`'s constructor triggers the first access
to singleton `B` (and the dependency map is acyclic, witnessed by a rank),
then `B` finishes constructing before `A`'s constructor returns — the
registration list is `mid ++ [A]` with `B` already in `mid` — and at
teardown, which runs in reverse order of completed construction, `A` is
destroyed strictly before `B`: the dependency `B` outlives its dependent
`A`. -/
theorem dependency_outlives_dependent
    (deps : Nat → List Nat) (rank : Nat → Nat)
    (hrank : ∀ x y, y ∈ deps x → rank y < rank x)
    (A B fuel : Nat) (reg0 reg : List Nat)
    (hB : B ∈ deps A) (hA0 : A ∉ reg0)
    (h : accessOne deps fuel A reg0 = some reg) :
    ∃ mid, reg = mid ++ [A] ∧ B ∈ mid ∧ A ∉ mid ∧
      (destructionOrder reg).indexOf A < (destructionOrder reg).indexOf B := by
  cases fuel with
  | zero => simp [accessOne] at h
  | succ f =>
      simp only [accessOne] at h
      rw [if_neg hA0] at h
      cases hm : accessMany deps f (deps A) reg0 with
      | none => simp only [hm] at h; cases h
      | some mid =>
          simp only [hm] at h
          injection h with h
          subst h
          have hBmid : B ∈ mid :=
            accessMany_mem_of deps f (deps A) reg0 mid hm B hB
          have hAmid : A ∉ mid := by
            intro hAin
            rcases accessMany_rank_of deps rank f
                (accessOne_rank deps rank hrank f) (deps A) reg0 mid hm
                A hAin with h0 | ⟨d, hd, hr⟩
            · exact hA0 h0
            · exact absurd (lt_of_le_of_lt hr (hrank A d hd)) (lt_irrefl _)
          have hBA : B ≠ A := by
            intro hEq
            rw [hEq] at hB
            exact absurd (hrank A A hB) (lt_irrefl _)
          refine ⟨mid, rfl, hBmid, hAmid, ?_⟩
          have hrev : destructionOrder (mid ++ [A]) = A :: mid.reverse := by
            simp [destructionOrder]
          rw [hrev, List.indexOf_cons_self, List.indexOf_cons_ne _ hBA.symm]
          exact Nat.succ_pos _

/-- Witness for the amended C4 on the spec's `Logger` (type `0`) /
`ConfigStore` (type `1`) scenario: the registration order is `[1, 0]`
(`ConfigStore` completes first) and the destruction order destroys
`Logger` (index `0`) strictly before `ConfigStore`. -/
theorem dependency_outlives_dependent_witness :
    ∃ mid, ([1, 0] : List Nat) = mid ++ [0] ∧ 1 ∈ mid ∧ 0 ∉ mid ∧
      (destructionOrder [1, 0]).indexOf 0 < (destructionOrder [1, 0]).indexOf 1 :=
  dependency_outlives_dependent depsLC rankLC
    (by
      intro x y hy
      by_cases hx : x = 0
      · subst hx
        simp [depsLC] at hy
        subst hy
        simp [rankLC]
      · simp [depsLC, hx] at hy)
    0 1 2 [] [1, 0]
    (by simp [depsLC]) (List.not_mem_nil 0)
    (by simp [accessOne, accessMany, depsLC])

/-- C4 fails as stated: in the `Logger` (type `0`) → `ConfigStore`
(type `1`) scenario, the first access to `Logger` registers `ConfigStore`
first (registration list `[1, 0]`), and destruction in reverse order of
first successful initialization destroys `Logger` first — so the claim
that `B` (the dependency, `1`) is destroyed strictly before `A` (the
dependent, `0`) is false: `B`'s destruction index is not smaller. -/
theorem dependency_destroyed_first_counterexample :
    accessOne depsLC 2 0 [] = some [1, 0] ∧
    ¬ ((destructionOrder [1, 0]).indexOf 1 <
        (destructionOrder [1, 0]).indexOf 0) := by
  constructor
  · simp [accessOne, accessMany, depsLC]
  · decide
